import Mathlib

/-!
A verification development for a sliding-window rate limiter backed by a
redis counter store.

The embedding covers:
* the redis glob matcher used by SCAN (the store's key discovery relies on
  its semantics; modelled after redis `stringmatchlen`, case-sensitive),
* decimal serialization of integers (the store's bucket keys embed a Unix
  timestamp via `%d` formatting),
* the counter store (`rate_limiter_store`): `generateKey`,
  `generateKeyMatcher`, `Get` (scan, deduplicate, sum) and `Set`
  (truncate, INCR, EXPIRE on first creation),
* the decision engine (`rate_limiter`): `EndpointConfig`,
  `DefaultEndpointConfig` and `AllowRequest`.

Machine integers are modelled as `Nat`/`Int`; the `int32` conversions of
the Go source are made explicit through `toInt32`.  Wall-clock instants
are `Nat` nanoseconds since the Go zero time (January 1, year 1 UTC);
durations are `Int` nanoseconds.
-/

/-! ### Redis glob matching (redis `stringmatchlen`, nocase = 0) -/

/-- A pattern consisting only of `*` characters matches the empty string. -/
def allStars : List Char → Bool
  | [] => true
  | c :: cs => (c == '*') && allStars cs

/-- Scan a `[...]` character class: first component is whether the class
matches the character, second is the pattern remaining after the class.
Mirrors the class loop of redis `stringmatchlen`: an escaped character is
literal, `]` closes the class, `a-b` is a range (bounds swapped when
reversed), and an unterminated class consumes the rest of the pattern. -/
def classLoop : List Char → Char → Bool → Bool × List Char
  | [], _, m => (m, [])
  | '\\' :: e :: ps, d, m => classLoop ps d (m || (e == d))
  | ']' :: ps, _, m => (m, ps)
  | a :: '-' :: b :: ps, d, m =>
    let lo := min a.toNat b.toNat
    let hi := max a.toNat b.toNat
    classLoop ps d (m || (decide (lo ≤ d.toNat) && decide (d.toNat ≤ hi)))
  | a :: ps, d, m => classLoop ps d (m || (a == d))

/-- A `[...]` class with optional leading `^` negation. -/
def classMatch (ps : List Char) (d : Char) : Bool × List Char :=
  match ps with
  | '^' :: rest =>
    let r := classLoop rest d false
    (!r.1, r.2)
  | _ => classLoop ps d false

/-- Redis glob matching with explicit fuel.  Each step shrinks
`pattern.length + string.length`, so fuel larger than that sum never runs
out; `stringmatch` below supplies such fuel. -/
def globMatch : Nat → List Char → List Char → Bool
  | 0, _, _ => false
  | _ + 1, p, [] => allStars p
  | _ + 1, [], _ :: _ => false
  | f + 1, c :: ps, d :: s =>
    if c = '*' then globMatch f ps (d :: s) || globMatch f (c :: ps) s
    else if c = '?' then globMatch f ps s
    else if c = '[' then
      let r := classMatch ps d
      r.1 && globMatch f r.2 s
    else if c = '\\' then
      match ps with
      | e :: ps2 => (e == d) && globMatch f ps2 s
      | [] => (c == d) && globMatch f [] s
    else (c == d) && globMatch f ps s

/-- Whether a redis glob pattern matches a string. -/
def stringmatch (pat s : String) : Bool :=
  globMatch (pat.data.length + s.data.length + 1) pat.data s.data

/-! ### Decimal serialization (Go `fmt` `%d`) -/

/-- The ASCII digit character for a decimal digit. -/
def digitChar10 (d : Nat) : Char := Char.ofNat (48 + d)

/-- Decimal digits of `n`, least significant first (empty for zero).
The first argument is fuel; `n` itself is always sufficient. -/
def digitsAuxFuel : Nat → Nat → List Nat
  | 0, _ => []
  | _ + 1, 0 => []
  | f + 1, n + 1 => ((n + 1) % 10) :: digitsAuxFuel f ((n + 1) / 10)

/-- The decimal digit characters of a natural number, most significant
first; zero prints as `0`. -/
def natDecimal (n : Nat) : List Char :=
  if n = 0 then ['0'] else (digitsAuxFuel n n).reverse.map digitChar10

/-- Decimal string of a natural number. -/
def natRepr (n : Nat) : String := ⟨natDecimal n⟩

/-- Decimal string of an integer, as produced by `%d`: an optional minus
sign followed by the decimal digits. -/
def intRepr : Int → String
  | Int.ofNat n => natRepr n
  | Int.negSucc m => "-" ++ natRepr (m + 1)

/-! ### Time arithmetic (Go `time`) -/

/-- Seconds between the Go zero time and the Unix epoch
(`unixToInternal` in Go's time package). -/
def unixToInternal : Int := 62135596800

/-- `Time.Unix()` for an instant given as nanoseconds since the zero
time: whole seconds since the Unix epoch. -/
def unixSeconds (t : Nat) : Int := (t : Int) / 1000000000 - unixToInternal

/-- `Time.Truncate(d)`: round down to a multiple of `d` since the zero
time; a non-positive `d` leaves the instant unchanged. -/
def truncateTime (t : Nat) (d : Int) : Nat :=
  if d ≤ 0 then t else t - t % d.toNat

/-- `int(ttl.Seconds())`: the duration in whole seconds, truncated toward
zero.  (Go computes this through a `float64`; for the magnitudes used in
this development the two agree exactly.) -/
def durSeconds (d : Int) : Int := Int.tdiv d 1000000000

/-- Go's `int32(·)` conversion: reduce modulo `2^32` into
`[-2^31, 2^31)`. -/
def toInt32 (i : Int) : Int := (i + 2147483648) % 4294967296 - 2147483648

/-! ### The counter store (`internal/rate_limiter_store`) -/

/-- `RateLimiterKey` from the store package. -/
structure RateLimiterKey where
  UserId : String
  Endpoint : String
deriving DecidableEq

/-- `generateKeyMatcher`: `fmt.Sprintf("%s#%s#*", key.UserId, key.Endpoint)`. -/
def generateKeyMatcher (key : RateLimiterKey) : String :=
  key.UserId ++ "#" ++ key.Endpoint ++ "#*"

/-- `generateKey`: `fmt.Sprintf("%s#%s#%d", key.UserId, key.Endpoint,
timestampWindow.Unix())`. -/
def generateKey (key : RateLimiterKey) (unixSecs : Int) : String :=
  key.UserId ++ "#" ++ key.Endpoint ++ "#" ++ intRepr unixSecs

/-- One redis key: a counter with an optional absolute expiry second. -/
structure RedisEntry where
  key : String
  value : Nat
  expireAt : Option Int
deriving DecidableEq

/-- The redis keyspace. -/
structure RedisState where
  entries : List RedisEntry
deriving DecidableEq

/-- Whether an entry is still live at the wall-clock second `now`. -/
def liveAt (now : Int) (e : RedisEntry) : Bool :=
  match e.expireAt with
  | none => true
  | some x => decide (now < x)

/-- The keyspace with expired entries removed (redis expiry). -/
def RedisState.purge (s : RedisState) (now : Int) : RedisState :=
  ⟨s.entries.filter (liveAt now)⟩

/-- `GET k` parsed as a counter: the live entry's value, `0` when the key
is absent. -/
def RedisState.valueOf (s : RedisState) (now : Int) (k : String) : Nat :=
  match (s.purge now).entries.find? (fun e => e.key == k) with
  | some e => e.value
  | none => 0

/-- The keys yielded by `SCAN` with a match pattern: live keys matching
the glob. -/
def RedisState.scanKeys (s : RedisState) (now : Int) (pat : String) : List String :=
  ((s.purge now).entries.filter (fun e => stringmatch pat e.key)).map (fun e => e.key)

/-- The scan loop of the store's `Get`: sum the value of every scanned
key, skipping keys already recorded in the `found` set. -/
def getLoop : List String → (String → Nat) → List String → Nat
  | [], _, _ => 0
  | k :: ks, val, found =>
    if found.contains k then getLoop ks val found
    else val k + getLoop ks val (k :: found)

/-- The store's `Get` before the `int32` conversion: deduplicated sum of
all live buckets matching `generateKeyMatcher key`. -/
def redisGetNat (s : RedisState) (now : Int) (key : RateLimiterKey) : Nat :=
  getLoop (s.scanKeys now (generateKeyMatcher key)) (s.valueOf now) []

/-- The store's `Get`: the aggregate count as the Go `int32` it returns. -/
def redisGetCount (s : RedisState) (now : Int) (key : RateLimiterKey) : Int :=
  toInt32 (redisGetNat s now key)

/-- `INCR k`: post-increment value and updated keyspace; an absent (or
expired) key is created with value 1 and no expiry. -/
def redisIncr (s : RedisState) (now : Int) (k : String) : Nat × RedisState :=
  let es := (s.purge now).entries
  match es.find? (fun e => e.key == k) with
  | some e =>
    (e.value + 1,
     ⟨es.map (fun e2 => if e2.key == k then { e2 with value := e2.value + 1 } else e2)⟩)
  | none => (1, ⟨es ++ [⟨k, 1, none⟩]⟩)

/-- `EXPIRE k secs`: set the key's expiry `secs` seconds from now. -/
def redisExpire (s : RedisState) (now : Int) (k : String) (secs : Int) : RedisState :=
  ⟨s.entries.map (fun e => if e.key == k then { e with expireAt := some (now + secs) } else e)⟩

/-- The store's `Set`: truncate the timestamp to the window boundary,
`INCR` the bucket key, and `EXPIRE` it when the increment created it
(post-increment value 1). -/
def redisSet (s : RedisState) (now : Int) (key : RateLimiterKey) (t : Nat) (w ttl : Int) :
    RedisState :=
  let k := generateKey key (unixSeconds (truncateTime t w))
  let r := redisIncr s now k
  if r.1 = 1 then redisExpire r.2 now k (durSeconds ttl) else r.2

/-! ### The rate limiter (`internal/rate_limiter`) -/

/-- `EndpointConfig`: max requests, retention window and bucket
granularity (durations in nanoseconds, as Go `time.Duration`). -/
structure EndpointConfig where
  MaxRequests : Int
  TimeWindow : Int
  SlidingWindowInterval : Int
deriving DecidableEq

/-- `DefaultEndpointConfig()`: 100 requests per 24 hours, 1 minute
buckets. -/
def DefaultEndpointConfig : EndpointConfig :=
  ⟨100, 24 * 60 * 60 * 1000000000, 60 * 1000000000⟩

/-- `RateLimiterConfig`: endpoint name to configuration (the Go map,
keys unique). -/
abbrev RateLimiterConfig := List (String × EndpointConfig)

/-- The `Store` interface: `Get` and `Set`, either may fail.  Both
receive the wall-clock second at which they execute (carried by the
request context in Go). -/
structure StoreOps (σ : Type) where
  Get : σ → Int → RateLimiterKey → Except String Int
  Set : σ → Int → RateLimiterKey → Nat → Int → Int → Except String σ

/-- `AllowRequest` over an arbitrary store: unlimited when the endpoint
is unconfigured; admit on a `Get` error; admit and record when the count
is zero or below `int32(MaxRequests)` (admitting even when the recording
`Set` fails); otherwise reject without recording.  `t` is `time.Now()`. -/
def AllowRequestS {σ : Type} (st : StoreOps σ) (config : RateLimiterConfig) (s : σ)
    (t : Nat) (endpoint userId : String) : Bool × σ :=
  match config.find? (fun p => p.1 == endpoint) with
  | none => (true, s)
  | some p =>
    match st.Get s (unixSeconds t) ⟨userId, endpoint⟩ with
    | Except.error _ => (true, s)
    | Except.ok count =>
      if count = 0 then
        match st.Set s (unixSeconds t) ⟨userId, endpoint⟩ t
            p.2.SlidingWindowInterval p.2.TimeWindow with
        | Except.error _ => (true, s)
        | Except.ok s2 => (true, s2)
      else if count < toInt32 p.2.MaxRequests then
        match st.Set s (unixSeconds t) ⟨userId, endpoint⟩ t
            p.2.SlidingWindowInterval p.2.TimeWindow with
        | Except.error _ => (true, s)
        | Except.ok s2 => (true, s2)
      else (false, s)

/-- The redis-backed store: its operations never fail. -/
def redisStoreOps : StoreOps RedisState :=
  ⟨fun s now k => Except.ok (redisGetCount s now k),
   fun s now k t w ttl => Except.ok (redisSet s now k t w ttl)⟩

/-- `AllowRequest` wired to the redis store. -/
def AllowRequest (config : RateLimiterConfig) (s : RedisState) (t : Nat)
    (endpoint userId : String) : Bool × RedisState :=
  AllowRequestS redisStoreOps config s t endpoint userId

/-- `n` strictly sequential `AllowRequest` calls at the same instant,
starting from an empty keyspace; returns the last decision and the
resulting keyspace. -/
def allowIter (config : RateLimiterConfig) (t : Nat) (endpoint userId : String) :
    Nat → Bool × RedisState
  | 0 => (true, ⟨[]⟩)
  | n + 1 => AllowRequest config (allowIter config t endpoint userId n).2 t endpoint userId

/-! ### Helper notions for the proofs -/

/-- A character with no special meaning in a redis glob pattern. -/
def globLit (c : Char) : Bool := !(c == '*' || c == '?' || c == '[' || c == '\\')

/-- All characters of the string are glob-literal. -/
abbrev CleanStr (s : String) : Prop := ∀ c ∈ s.data, globLit c = true

/-- The string does not contain the key delimiter. -/
abbrev NoHash (s : String) : Prop := ∀ c ∈ s.data, c ≠ '#'

/-- Boolean list-order test: the first list is an initial segment of the
second. -/
def hasPre : List Char → List Char → Bool
  | [], _ => true
  | _ :: _, [] => false
  | a :: as, b :: bs => (a == b) && hasPre as bs

theorem hasPre_append (l x : List Char) : hasPre l (l ++ x) = true := by
  induction l with
  | nil => rfl
  | cons a as ih => simp [hasPre, ih]

theorem hasPre_hash_split (as : List Char) :
    ∀ cs bs ds : List Char, (∀ c ∈ as, c ≠ '#') → (∀ c ∈ cs, c ≠ '#') →
    hasPre (as ++ '#' :: bs) (cs ++ '#' :: ds) = true →
    as = cs ∧ hasPre bs ds = true := by
  induction as with
  | nil =>
    intro cs bs ds _ hcs h
    cases cs with
    | nil =>
      simp only [List.nil_append, hasPre, beq_self_eq_true, Bool.true_and] at h
      exact ⟨rfl, h⟩
    | cons c cs2 =>
      exfalso
      simp only [List.nil_append, List.cons_append, hasPre, Bool.and_eq_true, beq_iff_eq] at h
      exact hcs c (List.mem_cons_self c cs2) h.1.symm
  | cons a as2 ih =>
    intro cs bs ds has hcs h
    cases cs with
    | nil =>
      exfalso
      simp only [List.cons_append, List.nil_append, hasPre, Bool.and_eq_true, beq_iff_eq] at h
      exact has a (List.mem_cons_self a as2) h.1
    | cons c cs2 =>
      simp only [List.cons_append, hasPre, Bool.and_eq_true, beq_iff_eq] at h
      have has2 : ∀ x ∈ as2, x ≠ '#' := fun x hx => has x (List.mem_cons_of_mem a hx)
      have hcs2 : ∀ x ∈ cs2, x ≠ '#' := fun x hx => hcs x (List.mem_cons_of_mem c hx)
      obtain ⟨heq, hp⟩ := ih cs2 bs ds has2 hcs2 h.2
      exact ⟨by rw [h.1, heq], hp⟩

theorem globMatch_lit_star : ∀ f lit s, (∀ c ∈ lit, globLit c = true) →
    lit.length + s.length < f → globMatch f (lit ++ ['*']) s = hasPre lit s := by
  intro f
  induction f with
  | zero => intro lit s _ h; omega
  | succ g ih =>
    intro lit s hclean hlen
    cases lit with
    | nil =>
      cases s with
      | nil => rfl
      | cons d s2 =>
        have hg : 0 < g := by simp at hlen; omega
        obtain ⟨g2, rfl⟩ : ∃ g2, g = g2 + 1 := ⟨g - 1, by omega⟩
        have h1 : globMatch (g2 + 1 + 1) ['*'] (d :: s2) =
            (globMatch (g2 + 1) [] (d :: s2) || globMatch (g2 + 1) ['*'] s2) := by
          simp [globMatch]
        have h2 : globMatch (g2 + 1) ([] : List Char) (d :: s2) = false := by
          simp [globMatch]
        have h3 : globMatch (g2 + 1) (([] : List Char) ++ ['*']) s2 = hasPre [] s2 := by
          apply ih
          · intro c hc; cases hc
          · simp at hlen ⊢; omega
        simp only [List.nil_append] at h3
        simp only [List.nil_append]
        rw [h1, h2, h3]
        rfl
    | cons c lt =>
      have hc : globLit c = true := hclean c (List.mem_cons_self c lt)
      have hc1 : ¬(c = '*') := by
        intro h; rw [h] at hc; simp [globLit] at hc
      have hc2 : ¬(c = '?') := by
        intro h; rw [h] at hc; simp [globLit] at hc
      have hc3 : ¬(c = '[') := by
        intro h; rw [h] at hc; simp [globLit] at hc
      have hc4 : ¬(c = '\\') := by
        intro h; rw [h] at hc; simp [globLit] at hc
      cases s with
      | nil =>
        have : globMatch (g + 1) ((c :: lt) ++ ['*']) [] = allStars ((c :: lt) ++ ['*']) := by
          simp [globMatch]
        rw [this]
        have : allStars ((c :: lt) ++ ['*']) = false := by
          simp only [List.cons_append, allStars, Bool.and_eq_true]
          simp [beq_iff_eq, hc1]
        rw [this]
        rfl
      | cons d s2 =>
        have h1 : globMatch (g + 1) ((c :: lt) ++ ['*']) (d :: s2) =
            ((c == d) && globMatch g (lt ++ ['*']) s2) := by
          simp only [List.cons_append, globMatch, if_neg hc1, if_neg hc2, if_neg hc3, if_neg hc4]
          rfl
        have h2 : globMatch g (lt ++ ['*']) s2 = hasPre lt s2 := by
          apply ih
          · intro x hx; exact hclean x (List.mem_cons_of_mem c hx)
          · simp at hlen ⊢; omega
        rw [h1, h2]
        rfl

/-! ### Properties of the decimal serialization -/

/-- Recompose a little-endian decimal digit list. -/
def ofDigits10 : List Nat → Nat
  | [] => 0
  | d :: ds => d + 10 * ofDigits10 ds

theorem digitsAuxFuel_lt : ∀ f n d, d ∈ digitsAuxFuel f n → d < 10 := by
  intro f
  induction f with
  | zero => intro n d h; cases h
  | succ g ih =>
    intro n d h
    cases n with
    | zero => cases h
    | succ m =>
      simp only [digitsAuxFuel] at h
      rcases List.mem_cons.mp h with h1 | h2
      · rw [h1]; exact Nat.mod_lt _ (by omega)
      · exact ih _ _ h2

theorem ofDigits10_digitsAuxFuel : ∀ f n, n ≤ f → ofDigits10 (digitsAuxFuel f n) = n := by
  intro f
  induction f with
  | zero => intro n h; interval_cases n; rfl
  | succ g ih =>
    intro n h
    cases n with
    | zero => rfl
    | succ m =>
      have hdiv : (m + 1) / 10 ≤ g := by
        have : (m + 1) / 10 < m + 1 := Nat.div_lt_self (by omega) (by omega)
        omega
      simp only [digitsAuxFuel, ofDigits10, ih _ hdiv]
      omega

theorem digitChar10_inj : ∀ d < 10, ∀ e < 10, digitChar10 d = digitChar10 e → d = e := by
  decide

theorem digitChar10_props : ∀ d < 10,
    digitChar10 d ≠ '-' ∧ digitChar10 d ≠ '#' ∧ globLit (digitChar10 d) = true := by
  decide

theorem map_digitChar10_inj : ∀ l1 l2 : List Nat, (∀ d ∈ l1, d < 10) → (∀ d ∈ l2, d < 10) →
    l1.map digitChar10 = l2.map digitChar10 → l1 = l2 := by
  intro l1
  induction l1 with
  | nil => intro l2 _ _ h; cases l2 <;> simp_all
  | cons a as ih =>
    intro l2 h1 h2 h
    cases l2 with
    | nil => simp at h
    | cons b bs =>
      simp only [List.map_cons, List.cons.injEq] at h
      have ha : a = b := digitChar10_inj a (h1 a (List.mem_cons_self a as)) b
        (h2 b (List.mem_cons_self b bs)) h.1
      have hs : as = bs := ih bs (fun d hd => h1 d (List.mem_cons_of_mem a hd))
        (fun d hd => h2 d (List.mem_cons_of_mem b hd)) h.2
      rw [ha, hs]

theorem natDecimal_inj : ∀ n m : Nat, natDecimal n = natDecimal m → n = m := by
  have key : ∀ n m : Nat, n ≠ 0 → m ≠ 0 → natDecimal n = natDecimal m → n = m := by
    intro n m hn hm h
    simp only [natDecimal, if_neg hn, if_neg hm] at h
    have hrev : (digitsAuxFuel n n).reverse = (digitsAuxFuel m m).reverse :=
      map_digitChar10_inj _ _
        (fun d hd => digitsAuxFuel_lt n n d (List.mem_reverse.mp hd))
        (fun d hd => digitsAuxFuel_lt m m d (List.mem_reverse.mp hd)) h
    have hlist : digitsAuxFuel n n = digitsAuxFuel m m := by
      have := congrArg List.reverse hrev
      simpa using this
    have h1 := ofDigits10_digitsAuxFuel n n (Nat.le_refl n)
    have h2 := ofDigits10_digitsAuxFuel m m (Nat.le_refl m)
    rw [← h1, ← h2, hlist]
  intro n m h
  by_cases hn : n = 0
  · by_cases hm : m = 0
    · rw [hn, hm]
    · exfalso
      subst hn
      simp only [natDecimal, if_pos rfl, if_neg hm] at h
      have h0 : ('0' : Char) = digitChar10 0 := by decide
      have : ([0] : List Nat) = (digitsAuxFuel m m).reverse := by
        apply map_digitChar10_inj
        · intro d hd; simp at hd; omega
        · intro d hd; exact digitsAuxFuel_lt m m d (List.mem_reverse.mp hd)
        · simpa [h0] using h
      have hof := ofDigits10_digitsAuxFuel m m (Nat.le_refl m)
      have : digitsAuxFuel m m = [0] := by
        have := congrArg List.reverse this
        simpa using this.symm
      rw [this] at hof
      simp [ofDigits10] at hof
      exact hm hof.symm
  · by_cases hm : m = 0
    · exfalso
      subst hm
      simp only [natDecimal, if_pos rfl, if_neg hn] at h
      have h0 : ('0' : Char) = digitChar10 0 := by decide
      have : (digitsAuxFuel n n).reverse = ([0] : List Nat) := by
        apply map_digitChar10_inj
        · intro d hd; exact digitsAuxFuel_lt n n d (List.mem_reverse.mp hd)
        · intro d hd; simp at hd; omega
        · simpa [h0] using h
      have hof := ofDigits10_digitsAuxFuel n n (Nat.le_refl n)
      have : digitsAuxFuel n n = [0] := by
        have := congrArg List.reverse this
        simpa using this
      rw [this] at hof
      simp [ofDigits10] at hof
      exact hn hof.symm
    · exact key n m hn hm h

theorem natDecimal_head : ∀ n : Nat, ∃ d rest, d < 10 ∧ natDecimal n = digitChar10 d :: rest := by
  intro n
  cases n with
  | zero =>
    refine ⟨0, [], by omega, ?_⟩
    decide
  | succ m =>
    have hne : digitsAuxFuel (m + 1) (m + 1) ≠ [] := by
      simp [digitsAuxFuel]
    have hrevne : (digitsAuxFuel (m + 1) (m + 1)).reverse ≠ [] := by
      simpa using hne
    obtain ⟨d, rest, hdr⟩ := List.exists_cons_of_ne_nil hrevne
    have hd10 : d < 10 := by
      apply digitsAuxFuel_lt (m + 1) (m + 1)
      apply List.mem_reverse.mp
      rw [hdr]
      exact List.mem_cons_self d rest
    refine ⟨d, rest.map digitChar10, hd10, ?_⟩
    simp [natDecimal, hdr]

theorem natDecimal_ne_nil (n : Nat) : natDecimal n ≠ [] := by
  obtain ⟨d, rest, _, h⟩ := natDecimal_head n
  rw [h]
  simp

theorem intRepr_inj : ∀ a b : Int, intRepr a = intRepr b → a = b := by
  have hdata : ∀ s t : String, s = t → s.data = t.data := fun s t h => by rw [h]
  intro a b h
  cases a with
  | ofNat n =>
    cases b with
    | ofNat m =>
      have := hdata _ _ h
      simp only [intRepr, natRepr] at this
      exact congrArg Int.ofNat (natDecimal_inj n m this)
    | negSucc m =>
      exfalso
      have := hdata _ _ h
      simp only [intRepr, natRepr, String.data_append] at this
      obtain ⟨d, rest, hd10, hform⟩ := natDecimal_head n
      rw [hform] at this
      simp only [List.singleton_append] at this
      have hhead : digitChar10 d = '-' := List.head_eq_of_cons_eq this
      exact (digitChar10_props d hd10).1 hhead
  | negSucc n =>
    cases b with
    | ofNat m =>
      exfalso
      have := hdata _ _ h
      simp only [intRepr, natRepr, String.data_append] at this
      obtain ⟨d, rest, hd10, hform⟩ := natDecimal_head m
      rw [hform] at this
      simp only [List.singleton_append] at this
      have hhead : ('-' : Char) = digitChar10 d := List.head_eq_of_cons_eq this
      exact (digitChar10_props d hd10).1 hhead.symm
    | negSucc m =>
      have := hdata _ _ h
      simp only [intRepr, natRepr, String.data_append] at this
      simp only [List.singleton_append, List.cons.injEq] at this
      have hnm := natDecimal_inj _ _ this.2
      have : n = m := by omega
      rw [this]

theorem intRepr_chars : ∀ (i : Int) (c : Char), c ∈ (intRepr i).data →
    c ≠ '#' ∧ globLit c = true := by
  have hnat : ∀ (n : Nat) (c : Char), c ∈ natDecimal n → c ≠ '#' ∧ globLit c = true := by
    intro n c hc
    by_cases hn : n = 0
    · subst hn
      simp only [natDecimal, if_true, List.mem_singleton, reduceIte] at hc
      subst hc; exact ⟨by decide, by decide⟩
    · simp only [natDecimal, if_neg hn, List.mem_map] at hc
      obtain ⟨d, hd, rfl⟩ := hc
      have hd10 : d < 10 := digitsAuxFuel_lt n n d (List.mem_reverse.mp hd)
      exact ⟨(digitChar10_props d hd10).2.1, (digitChar10_props d hd10).2.2⟩
  intro i c hc
  cases i with
  | ofNat n => exact hnat n c hc
  | negSucc m =>
    simp only [intRepr, natRepr, String.data_append] at hc
    simp only [List.singleton_append] at hc
    rcases List.mem_cons.mp hc with h1 | h2
    · subst h1; exact ⟨by decide, by decide⟩
    · exact hnat _ c h2

/-! ### Key and pattern structure -/

theorem generateKeyMatcher_data (key : RateLimiterKey) :
    (generateKeyMatcher key).data =
      (key.UserId.data ++ '#' :: (key.Endpoint.data ++ ['#'])) ++ ['*'] := by
  simp [generateKeyMatcher, String.data_append]

theorem generateKey_data (key : RateLimiterKey) (i : Int) :
    (generateKey key i).data =
      key.UserId.data ++ '#' :: (key.Endpoint.data ++ '#' :: (intRepr i).data) := by
  simp [generateKey, String.data_append]

/-- On clean identifiers the matcher pattern is the literal
`userId#endpoint#` followed by a trailing star, so matching is exactly an
initial-segment test. -/
theorem stringmatch_matcher (key : RateLimiterKey) (s : String)
    (hu : CleanStr key.UserId) (he : CleanStr key.Endpoint) :
    stringmatch (generateKeyMatcher key) s =
      hasPre (key.UserId.data ++ '#' :: (key.Endpoint.data ++ ['#'])) s.data := by
  have hlitclean : ∀ c ∈ key.UserId.data ++ '#' :: (key.Endpoint.data ++ ['#']),
      globLit c = true := by
    intro c hc
    rcases List.mem_append.mp hc with h1 | h2
    · exact hu c h1
    · rcases List.mem_cons.mp h2 with h3 | h4
      · subst h3; decide
      · rcases List.mem_append.mp h4 with h5 | h6
        · exact he c h5
        · simp only [List.mem_singleton] at h6; subst h6; decide
  unfold stringmatch
  rw [generateKeyMatcher_data]
  apply globMatch_lit_star _ _ _ hlitclean
  simp [generateKeyMatcher_data]
  omega

/-- The decisive matching fact: for clean, delimiter-free identifiers the
pattern of one `RateLimiterKey` matches a bucket key of another exactly
when the two `RateLimiterKey`s coincide. -/
theorem stringmatch_matcher_key (A B : RateLimiterKey) (i : Int)
    (huA : CleanStr A.UserId) (heA : CleanStr A.Endpoint)
    (hhuA : NoHash A.UserId) (hheA : NoHash A.Endpoint)
    (hhuB : NoHash B.UserId) (hheB : NoHash B.Endpoint) :
    stringmatch (generateKeyMatcher A) (generateKey B i) = true ↔ A = B := by
  rw [stringmatch_matcher A _ huA heA, generateKey_data]
  constructor
  · intro h
    obtain ⟨h1, h2⟩ := hasPre_hash_split A.UserId.data B.UserId.data _ _ hhuA hhuB h
    have h2' : hasPre (A.Endpoint.data ++ '#' :: []) (B.Endpoint.data ++ '#' :: (intRepr i).data)
        = true := by simpa using h2
    obtain ⟨h3, _⟩ := hasPre_hash_split A.Endpoint.data B.Endpoint.data _ _ hheA hheB h2'
    obtain ⟨ua, ea⟩ := A
    obtain ⟨ub, eb⟩ := B
    simp only at h1 h3
    have hu : ua = ub := by
      apply String.ext
      exact h1
    have he : ea = eb := by
      apply String.ext
      exact h3
    rw [hu, he]
  · intro h
    subst h
    have : A.UserId.data ++ '#' :: (A.Endpoint.data ++ '#' :: (intRepr i).data) =
        (A.UserId.data ++ '#' :: (A.Endpoint.data ++ ['#'])) ++ (intRepr i).data := by
      simp
    rw [this]
    exact hasPre_append _ _

/-! ### List helper lemmas for the store proofs -/

theorem find?_filter {α : Type} (l : List α) (p q : α → Bool) :
    (l.filter q).find? p = l.find? (fun a => q a && p a) := by
  induction l with
  | nil => rfl
  | cons a as ih =>
    by_cases hq : q a = true
    · by_cases hp : p a = true
      · simp [List.filter_cons, hq, List.find?_cons, hp]
      · simp only [Bool.not_eq_true] at hp
        simp [List.filter_cons, hq, List.find?_cons, hp, ih]
    · simp only [Bool.not_eq_true] at hq
      simp [List.filter_cons, hq, List.find?_cons, ih]

theorem find?_congr {α : Type} (l : List α) (p q : α → Bool)
    (h : ∀ a ∈ l, p a = q a) : l.find? p = l.find? q := by
  induction l with
  | nil => rfl
  | cons a as ih =>
    have ha := h a (List.mem_cons_self a as)
    by_cases hp : p a = true
    · simp [List.find?_cons, hp, ha ▸ hp]
    · simp only [Bool.not_eq_true] at hp
      have hq : q a = false := ha ▸ hp
      simp [List.find?_cons, hp, hq]
      exact ih (fun x hx => h x (List.mem_cons_of_mem a hx))

theorem find?_append_right_none {α : Type} (l1 l2 : List α) (p : α → Bool)
    (h : ∀ a ∈ l2, p a = false) : (l1 ++ l2).find? p = l1.find? p := by
  induction l1 with
  | nil =>
    simp only [List.nil_append]
    have hnone : l2.find? p = none := by
      apply List.find?_eq_none.mpr
      intro a ha
      simp [h a ha]
    rw [hnone]
    rfl
  | cons a as ih =>
    by_cases hp : p a = true
    · simp [List.find?_cons, hp]
    · simp only [Bool.not_eq_true] at hp
      simp [List.find?_cons, hp, ih]

theorem getLoop_congr (ks : List String) (val val' : String → Nat)
    (h : ∀ k ∈ ks, val k = val' k) : ∀ found, getLoop ks val found = getLoop ks val' found := by
  induction ks with
  | nil => intro found; rfl
  | cons k ks2 ih =>
    intro found
    have hk := h k (List.mem_cons_self k ks2)
    have ih2 := ih (fun x hx => h x (List.mem_cons_of_mem k hx))
    by_cases hc : k ∈ found
    · have hc' : found.contains k = true := List.elem_iff.mpr hc
      simp only [getLoop, if_pos hc', ih2]
    · have hc' : ¬(found.contains k = true) := fun hcc => hc (List.elem_iff.mp hcc)
      simp only [getLoop, if_neg hc', ih2, hk]

/-- The deduplicating scan loop computes the sum of the looked-up value
over the distinct scanned keys not yet in the `found` set. -/
theorem getLoop_sum (ks : List String) (val : String → Nat) :
    ∀ found, getLoop ks val found = (ks.toFinset \ found.toFinset).sum val := by
  induction ks with
  | nil => intro found; simp [getLoop]
  | cons k ks2 ih =>
    intro found
    by_cases hc : k ∈ found
    · have hc' : found.contains k = true := List.elem_iff.mpr hc
      have h1 : (k :: ks2).toFinset \ found.toFinset = ks2.toFinset \ found.toFinset := by
        rw [List.toFinset_cons]
        exact Finset.insert_sdiff_of_mem _ (List.mem_toFinset.mpr hc)
      simp only [getLoop, if_pos hc']
      rw [ih found, h1]
    · have hc' : ¬(found.contains k = true) := fun hcc => hc (List.elem_iff.mp hcc)
      simp only [getLoop, if_neg hc']
      rw [ih (k :: found)]
      have e1 : (k :: found).toFinset = insert k found.toFinset := List.toFinset_cons
      have e2 : (k :: ks2).toFinset = insert k ks2.toFinset := List.toFinset_cons
      have hkey : insert k ks2.toFinset \ found.toFinset =
          insert k (ks2.toFinset \ insert k found.toFinset) := by
        ext x
        simp only [Finset.mem_sdiff, Finset.mem_insert, List.mem_toFinset]
        by_cases hx : x = k
        · subst hx
          simp [hc]
        · simp [hx]
      have hnm : k ∉ ks2.toFinset \ insert k found.toFinset := by
        simp
      rw [e1, e2, hkey, Finset.sum_insert hnm]

/-! ### Normal forms of the store's Set -/

/-- The bucket key a `Set` call touches. -/
def setKey (key : RateLimiterKey) (t : Nat) (w : Int) : String :=
  generateKey key (unixSeconds (truncateTime t w))

theorem purge_idem (s : RedisState) (now : Int) : (s.purge now).purge now = s.purge now := by
  simp only [RedisState.purge, List.filter_filter, Bool.and_self]

theorem mem_purge_live {s : RedisState} {now : Int} {e : RedisEntry}
    (h : e ∈ (s.purge now).entries) : liveAt now e = true :=
  List.of_mem_filter h

theorem filter_live_purge (s : RedisState) (now : Int) :
    (s.purge now).entries.filter (liveAt now) = (s.purge now).entries := by
  show (s.entries.filter (liveAt now)).filter (liveAt now) = s.entries.filter (liveAt now)
  rw [List.filter_filter]
  simp

/-- A `Set` that creates its bucket: the new entry is appended with value
1 and expiry `durSeconds ttl` seconds from now. -/
theorem redisSet_new (s : RedisState) (now : Int) (key : RateLimiterKey) (t : Nat) (w ttl : Int)
    (h : (s.purge now).entries.find? (fun e => e.key == setKey key t w) = none) :
    redisSet s now key t w ttl =
      ⟨(s.purge now).entries ++
        [⟨setKey key t w, 1, some (now + durSeconds ttl)⟩]⟩ := by
  simp only [setKey] at h
  have hnokey : ∀ e ∈ (s.purge now).entries,
      (e.key == generateKey key (unixSeconds (truncateTime t w))) = false := by
    intro e he
    have := List.find?_eq_none.mp h e he
    simpa using this
  have hmap : ∀ l : List RedisEntry,
      (∀ e ∈ l, (e.key == generateKey key (unixSeconds (truncateTime t w))) = false) →
      l.map (fun e => if e.key == generateKey key (unixSeconds (truncateTime t w)) then
        { e with expireAt := some (now + durSeconds ttl) } else e) = l := by
    intro l hl
    induction l with
    | nil => rfl
    | cons a as ih =>
      simp only [List.map_cons]
      rw [if_neg (by simp [hl a (List.mem_cons_self a as)]),
        ih (fun e he => hl e (List.mem_cons_of_mem a he))]
  simp only [redisSet, redisIncr, h]
  simp only [reduceIte, redisExpire, List.map_append]
  rw [hmap _ hnokey]
  simp [setKey]


/-- A `Set` that hits an existing live bucket with a positive counter:
every entry under the bucket key is incremented, expiries untouched. -/
theorem redisSet_existing (s : RedisState) (now : Int) (key : RateLimiterKey) (t : Nat)
    (w ttl : Int) (e0 : RedisEntry)
    (h : (s.purge now).entries.find? (fun e => e.key == setKey key t w) = some e0)
    (hv : e0.value ≠ 0) :
    redisSet s now key t w ttl =
      ⟨(s.purge now).entries.map (fun e => if e.key == setKey key t w then
        { e with value := e.value + 1 } else e)⟩ := by
  simp only [setKey] at h ⊢
  simp only [redisSet, redisIncr, h]
  rw [if_neg (by omega)]

/-- A `Set` that hits an existing live bucket whose counter reads zero:
as above but the increment reports 1, so the expiry is also refreshed. -/
theorem redisSet_existing_zero (s : RedisState) (now : Int) (key : RateLimiterKey) (t : Nat)
    (w ttl : Int) (e0 : RedisEntry)
    (h : (s.purge now).entries.find? (fun e => e.key == setKey key t w) = some e0)
    (hv : e0.value = 0) :
    redisSet s now key t w ttl =
      ⟨((s.purge now).entries.map (fun e => if e.key == setKey key t w then
          { e with value := e.value + 1 } else e)).map
        (fun e => if e.key == setKey key t w then
          { e with expireAt := some (now + durSeconds ttl) } else e)⟩ := by
  simp only [setKey] at h ⊢
  simp only [redisSet, redisIncr, h, hv]
  simp only [reduceIte]
  rfl

/-! ### Frame lemmas: a Set under a non-matching bucket key leaves Get alone -/

/-- Appending an entry whose key the pattern does not match changes
neither the scan result nor any matching key's value. -/
theorem redisGetNat_append_frame (s : RedisState) (now : Int) (A : RateLimiterKey)
    (newE : RedisEntry) (hnm : stringmatch (generateKeyMatcher A) newE.key = false) :
    redisGetNat ⟨(s.purge now).entries ++ [newE]⟩ now A = redisGetNat s now A := by
  have hfl : ((s.purge now).entries ++ [newE]).filter (liveAt now) =
      (s.purge now).entries ++ List.filter (liveAt now) [newE] := by
    rw [List.filter_append, filter_live_purge]
  have hX : (List.filter (liveAt now) [newE]).filter
      (fun e => stringmatch (generateKeyMatcher A) e.key) = [] := by
    rw [List.filter_eq_nil_iff]
    intro a ha
    have ha2 : a = newE := by
      have := List.mem_of_mem_filter ha
      simpa using this
    rw [ha2, hnm]
    simp
  have hscan : (RedisState.mk ((s.purge now).entries ++ [newE])).scanKeys now
      (generateKeyMatcher A) = s.scanKeys now (generateKeyMatcher A) := by
    show (((RedisState.mk ((s.purge now).entries ++ [newE])).purge now).entries.filter
        (fun e => stringmatch (generateKeyMatcher A) e.key)).map (fun e => e.key) = _
    have : ((RedisState.mk ((s.purge now).entries ++ [newE])).purge now).entries =
        (s.purge now).entries ++ List.filter (liveAt now) [newE] := by
      simp only [RedisState.purge]
      exact hfl
    rw [this, List.filter_append, hX, List.append_nil]
    rfl
  have hval : ∀ k, stringmatch (generateKeyMatcher A) k = true →
      (RedisState.mk ((s.purge now).entries ++ [newE])).valueOf now k = s.valueOf now k := by
    intro k hk
    have hkne : (newE.key == k) = false := by
      apply beq_eq_false_iff_ne.mpr
      intro he
      rw [he] at hnm
      rw [hk] at hnm
      cases hnm
    have hfind : (((RedisState.mk ((s.purge now).entries ++ [newE])).purge now).entries).find?
        (fun e => e.key == k) = ((s.purge now).entries).find? (fun e => e.key == k) := by
      have hent : ((RedisState.mk ((s.purge now).entries ++ [newE])).purge now).entries =
          (s.purge now).entries ++ List.filter (liveAt now) [newE] := by
        simp only [RedisState.purge]
        exact hfl
      rw [hent]
      apply find?_append_right_none
      intro a ha
      have ha2 : a = newE := by
        have := List.mem_of_mem_filter ha
        simpa using this
      rw [ha2]
      exact hkne
    have hsp : ((s.purge now).purge now).entries.find? (fun e => e.key == k) =
        ((s.purge now).entries).find? (fun e => e.key == k) := by
      rw [purge_idem]
    simp only [RedisState.valueOf, hfind, hsp]
  unfold redisGetNat
  rw [hscan]
  apply getLoop_congr
  intro k hk
  apply hval
  obtain ⟨e, he, rfl⟩ := List.mem_map.mp hk
  have := List.of_mem_filter he
  simpa using this

/-- Rewriting the live entries through a key-preserving function that is
the identity away from a non-matching key `k0` changes neither the scan
result nor any matching key's value. -/
theorem redisGetNat_map_frame (s : RedisState) (now : Int) (A : RateLimiterKey) (k0 : String)
    (hfun : RedisEntry → RedisEntry)
    (hkey : ∀ e, (hfun e).key = e.key)
    (hid : ∀ e, e.key ≠ k0 → hfun e = e)
    (hnm : stringmatch (generateKeyMatcher A) k0 = false) :
    redisGetNat ⟨(s.purge now).entries.map hfun⟩ now A = redisGetNat s now A := by
  have hcomb : ∀ e : RedisEntry,
      ((fun e => stringmatch (generateKeyMatcher A) e.key && liveAt now e) ∘ hfun) e =
      (fun e => stringmatch (generateKeyMatcher A) e.key && liveAt now e) e := by
    intro e
    by_cases hk : e.key = k0
    · have h1 : stringmatch (generateKeyMatcher A) (hfun e).key = false := by
        rw [hkey, hk, hnm]
      have h2 : stringmatch (generateKeyMatcher A) e.key = false := by
        rw [hk, hnm]
      simp [Function.comp, h1, h2]
    · rw [Function.comp_apply, hid e hk]
  have hfilter : ((s.purge now).entries.map hfun).filter
      (fun e => stringmatch (generateKeyMatcher A) e.key && liveAt now e) =
      (s.purge now).entries.filter
      (fun e => stringmatch (generateKeyMatcher A) e.key && liveAt now e) := by
    rw [List.filter_map, funext hcomb]
    have hmapid : ((s.purge now).entries.filter
        (fun e => stringmatch (generateKeyMatcher A) e.key && liveAt now e)).map hfun =
        ((s.purge now).entries.filter
        (fun e => stringmatch (generateKeyMatcher A) e.key && liveAt now e)).map id := by
      apply List.map_congr_left
      intro e he
      show hfun e = e
      apply hid
      intro hk
      have hme := List.of_mem_filter he
      rw [hk, hnm] at hme
      simp at hme
    rw [hmapid, List.map_id]
  have hfiltStable : (s.purge now).entries.filter
      (fun e => stringmatch (generateKeyMatcher A) e.key && liveAt now e) =
      (s.purge now).entries.filter (fun e => stringmatch (generateKeyMatcher A) e.key) := by
    apply List.filter_congr
    intro e he
    rw [mem_purge_live he]
    simp
  have hscan : (RedisState.mk ((s.purge now).entries.map hfun)).scanKeys now
      (generateKeyMatcher A) = s.scanKeys now (generateKeyMatcher A) := by
    show (((RedisState.mk ((s.purge now).entries.map hfun)).purge now).entries.filter
        (fun e => stringmatch (generateKeyMatcher A) e.key)).map (fun e => e.key) = _
    have hent : ((RedisState.mk ((s.purge now).entries.map hfun)).purge now).entries =
        ((s.purge now).entries.map hfun).filter (liveAt now) := rfl
    rw [hent, List.filter_filter, hfilter, hfiltStable]
    rfl
  have hval : ∀ k, stringmatch (generateKeyMatcher A) k = true →
      (RedisState.mk ((s.purge now).entries.map hfun)).valueOf now k = s.valueOf now k := by
    intro k hk
    have hkne : k ≠ k0 := by
      intro he
      rw [he, hnm] at hk
      cases hk
    have hpred : ∀ e : RedisEntry,
        ((fun e => liveAt now e && (e.key == k)) ∘ hfun) e =
        (fun e => liveAt now e && (e.key == k)) e := by
      intro e
      by_cases hek : e.key = k0
      · have h1 : ((hfun e).key == k) = false := by
          rw [hkey]
          exact beq_eq_false_iff_ne.mpr (fun hh => hkne (hh ▸ hek))
        have h2 : (e.key == k) = false :=
          beq_eq_false_iff_ne.mpr (fun hh => hkne (hh ▸ hek))
        simp [Function.comp, h1, h2]
      · rw [Function.comp_apply, hid e hek]
    have hfind : (((RedisState.mk ((s.purge now).entries.map hfun)).purge now).entries).find?
        (fun e => e.key == k) =
        (((s.purge now).entries).find? (fun e => e.key == k)).map hfun := by
      have hent : ((RedisState.mk ((s.purge now).entries.map hfun)).purge now).entries =
          ((s.purge now).entries.map hfun).filter (liveAt now) := rfl
      rw [hent, find?_filter, List.find?_map, find?_congr _ _ _
        (fun e _ => hpred e)]
      rw [← find?_filter, filter_live_purge]
    simp only [RedisState.valueOf, hfind, purge_idem]
    cases hf : ((s.purge now).entries).find? (fun e => e.key == k) with
    | none => rfl
    | some e =>
      have hek : e.key = k := by
        have := List.find?_some hf
        simpa using this
      have hfe : hfun e = e := hid e (by rw [hek]; exact hkne)
      simp [hfe]
  unfold redisGetNat
  rw [hscan]
  apply getLoop_congr
  intro k hk
  apply hval
  obtain ⟨e, he, rfl⟩ := List.mem_map.mp hk
  have := List.of_mem_filter he
  simpa using this

/-! ### Same-key behaviour of the store's Set -/

theorem find?_append_left_none {α : Type} (l1 l2 : List α) (p : α → Bool)
    (h : l1.find? p = none) : (l1 ++ l2).find? p = l2.find? p := by
  induction l1 with
  | nil => rfl
  | cons a as ih =>
    have ha : p a = false := by
      have := List.find?_eq_none.mp h a (List.mem_cons_self a as)
      simpa using this
    have has : as.find? p = none := by
      apply List.find?_eq_none.mpr
      intro x hx
      exact List.find?_eq_none.mp h x (List.mem_cons_of_mem a hx)
    simp [List.find?_cons, ha, ih has]

/-- `find?` by key through a key- and liveness-preserving rewrite of the
live entries. -/
theorem find?_map_purge (s : RedisState) (now : Int) (hfun : RedisEntry → RedisEntry)
    (hkeep : ∀ e, (hfun e).key = e.key)
    (hlive : ∀ e, liveAt now (hfun e) = liveAt now e) (k : String) :
    ((RedisState.mk ((s.purge now).entries.map hfun)).purge now).entries.find?
      (fun e => e.key == k) =
    (((s.purge now).entries).find? (fun e => e.key == k)).map hfun := by
  have hent : ((RedisState.mk ((s.purge now).entries.map hfun)).purge now).entries =
      ((s.purge now).entries.map hfun).filter (liveAt now) := rfl
  rw [hent, find?_filter, List.find?_map]
  rw [find?_congr _ _ (fun e => liveAt now e && (e.key == k))
    (fun e _ => by simp [Function.comp, hlive, hkeep])]
  rw [← find?_filter, filter_live_purge]

/-- Scan through a key- and liveness-preserving rewrite of the live
entries. -/
theorem scanKeys_map_purge (s : RedisState) (now : Int) (hfun : RedisEntry → RedisEntry)
    (hkeep : ∀ e, (hfun e).key = e.key)
    (hlive : ∀ e, liveAt now (hfun e) = liveAt now e) (pat : String) :
    (RedisState.mk ((s.purge now).entries.map hfun)).scanKeys now pat =
      s.scanKeys now pat := by
  show ((((RedisState.mk ((s.purge now).entries.map hfun)).purge now).entries).filter
      (fun e => stringmatch pat e.key)).map (fun e => e.key) = _
  have hent : ((RedisState.mk ((s.purge now).entries.map hfun)).purge now).entries =
      ((s.purge now).entries.map hfun).filter (liveAt now) := rfl
  rw [hent, List.filter_filter, List.filter_map]
  rw [List.filter_congr (fun e _ => by
    simp [Function.comp, hlive, hkeep] :
    ∀ e ∈ (s.purge now).entries,
      ((fun e => stringmatch pat e.key && liveAt now e) ∘ hfun) e =
      (fun e => stringmatch pat e.key && liveAt now e) e)]
  rw [List.map_map]
  have h1 : (s.purge now).entries.filter (fun e => stringmatch pat e.key && liveAt now e) =
      (s.purge now).entries.filter (fun e => stringmatch pat e.key) := by
    apply List.filter_congr
    intro e he
    rw [mem_purge_live he]
    simp
  rw [h1]
  apply List.map_congr_left
  intro e _
  simp [Function.comp, hkeep]

/-- Get on the empty keyspace. -/
theorem redisGetNat_empty (now : Int) (key : RateLimiterKey) :
    redisGetNat ⟨[]⟩ now key = 0 := rfl

/-- Get on a keyspace holding exactly one live, matching bucket. -/
theorem redisGetNat_single (now : Int) (A : RateLimiterKey) (k : String) (v : Nat)
    (ex : Option Int) (hm : stringmatch (generateKeyMatcher A) k = true)
    (hl : liveAt now ⟨k, v, ex⟩ = true) :
    redisGetNat ⟨[⟨k, v, ex⟩]⟩ now A = v := by
  have hp : (RedisState.mk [⟨k, v, ex⟩]).purge now = ⟨[⟨k, v, ex⟩]⟩ := by
    simp [RedisState.purge, List.filter, hl]
  simp [redisGetNat, RedisState.scanKeys, RedisState.valueOf, hp, List.filter, hm,
    getLoop, List.find?]

/-- A `Set` whose bucket key the key's own pattern matches raises the
aggregate Get count by exactly one (counters positive, TTL at least one
second). -/
theorem redisGetNat_set_same (s : RedisState) (now : Int) (key : RateLimiterKey) (t : Nat)
    (w ttl : Int)
    (hm : stringmatch (generateKeyMatcher key) (setKey key t w) = true)
    (httl : 0 < durSeconds ttl)
    (hval1 : ∀ e ∈ s.entries, e.value ≠ 0) :
    redisGetNat (redisSet s now key t w ttl) now key = redisGetNat s now key + 1 := by
  have hgetsum : ∀ (s2 : RedisState),
      redisGetNat s2 now key = ((s2.scanKeys now (generateKeyMatcher key)).toFinset).sum
        (s2.valueOf now) := by
    intro s2
    unfold redisGetNat
    rw [getLoop_sum]
    simp
  cases hf : (s.purge now).entries.find? (fun e => e.key == setKey key t w) with
  | none =>
    have hnokB : ∀ e ∈ (s.purge now).entries, (e.key == setKey key t w) = false := by
      intro e he
      have := List.find?_eq_none.mp hf e he
      simpa using this
    rw [redisSet_new s now key t w ttl hf]
    have hliveNew : liveAt now (⟨setKey key t w, 1, some (now + durSeconds ttl)⟩ : RedisEntry)
        = true := by
      simp [liveAt]
      omega
    have hpurgeR : ((RedisState.mk ((s.purge now).entries ++
        [⟨setKey key t w, 1, some (now + durSeconds ttl)⟩])).purge now).entries =
        (s.purge now).entries ++ [⟨setKey key t w, 1, some (now + durSeconds ttl)⟩] := by
      show ((s.purge now).entries ++
          [(⟨setKey key t w, 1, some (now + durSeconds ttl)⟩ : RedisEntry)]).filter
        (liveAt now) = _
      rw [List.filter_append, filter_live_purge]
      simp [List.filter, hliveNew]
    have hscanR : (RedisState.mk ((s.purge now).entries ++
        [⟨setKey key t w, 1, some (now + durSeconds ttl)⟩])).scanKeys now
        (generateKeyMatcher key) =
        s.scanKeys now (generateKeyMatcher key) ++ [setKey key t w] := by
      show ((((RedisState.mk ((s.purge now).entries ++
          [⟨setKey key t w, 1, some (now + durSeconds ttl)⟩])).purge now).entries).filter
          (fun e => stringmatch (generateKeyMatcher key) e.key)).map (fun e => e.key) = _
      rw [hpurgeR, List.filter_append, List.map_append]
      simp [List.filter, hm]
      rfl
    have hvalRnew : (RedisState.mk ((s.purge now).entries ++
        [⟨setKey key t w, 1, some (now + durSeconds ttl)⟩])).valueOf now (setKey key t w)
        = 1 := by
      unfold RedisState.valueOf
      rw [show ((RedisState.mk ((s.purge now).entries ++
        [⟨setKey key t w, 1, some (now + durSeconds ttl)⟩])).purge now).entries =
        (s.purge now).entries ++ [⟨setKey key t w, 1, some (now + durSeconds ttl)⟩] from hpurgeR]
      rw [find?_append_left_none _ _ _ hf]
      simp [List.find?]
    have hvalRold : ∀ k, k ≠ setKey key t w →
        (RedisState.mk ((s.purge now).entries ++
          [⟨setKey key t w, 1, some (now + durSeconds ttl)⟩])).valueOf now k
        = s.valueOf now k := by
      intro k hk
      unfold RedisState.valueOf
      rw [show ((RedisState.mk ((s.purge now).entries ++
        [⟨setKey key t w, 1, some (now + durSeconds ttl)⟩])).purge now).entries =
        (s.purge now).entries ++ [⟨setKey key t w, 1, some (now + durSeconds ttl)⟩] from hpurgeR]
      rw [find?_append_right_none _ _ _ (by
        intro a ha
        simp only [List.mem_singleton] at ha
        subst ha
        simp
        exact fun hh => hk hh.symm)]
    have hkBnotin : setKey key t w ∉ s.scanKeys now (generateKeyMatcher key) := by
      intro hmem
      obtain ⟨e, he, hke⟩ := List.mem_map.mp hmem
      have hmem2 := List.mem_of_mem_filter he
      have := hnokB e hmem2
      rw [hke] at this
      simp at this
    rw [hgetsum, hgetsum, hscanR]
    rw [List.toFinset_append]
    have hunion : (s.scanKeys now (generateKeyMatcher key)).toFinset ∪
        ([setKey key t w] : List String).toFinset =
        insert (setKey key t w) (s.scanKeys now (generateKeyMatcher key)).toFinset := by
      rw [show ([setKey key t w] : List String).toFinset = {setKey key t w} from rfl]
      rw [Finset.insert_eq, Finset.union_comm]
    rw [hunion, Finset.sum_insert (by
      intro hmem
      exact hkBnotin (List.mem_toFinset.mp hmem))]
    rw [hvalRnew]
    have hsum : ((s.scanKeys now (generateKeyMatcher key)).toFinset).sum
        ((RedisState.mk ((s.purge now).entries ++
          [⟨setKey key t w, 1, some (now + durSeconds ttl)⟩])).valueOf now) =
        ((s.scanKeys now (generateKeyMatcher key)).toFinset).sum (s.valueOf now) := by
      apply Finset.sum_congr rfl
      intro k hk
      apply hvalRold
      intro hkk
      exact hkBnotin (hkk ▸ List.mem_toFinset.mp hk)
    rw [hsum]
    omega
  | some e0 =>
    have he0mem : e0 ∈ (s.purge now).entries := List.mem_of_find?_eq_some hf
    have he0key : e0.key = setKey key t w := by
      have := List.find?_some hf
      simpa using this
    have hv0 : e0.value ≠ 0 :=
      hval1 e0 (List.mem_of_mem_filter he0mem)
    rw [redisSet_existing s now key t w ttl e0 hf hv0]
    have hkeep : ∀ e : RedisEntry, ((fun e => if e.key == setKey key t w then
        { e with value := e.value + 1 } else e) e).key = e.key := by
      intro e
      by_cases hek : e.key == setKey key t w
      · simp [hek]
      · simp [hek]
    have hlive : ∀ e : RedisEntry, liveAt now ((fun e => if e.key == setKey key t w then
        { e with value := e.value + 1 } else e) e) = liveAt now e := by
      intro e
      by_cases hek : e.key == setKey key t w
      · simp [hek, liveAt]
      · simp [hek]
    rw [hgetsum, hgetsum]
    rw [scanKeys_map_purge s now _ hkeep hlive]
    have hkBin : setKey key t w ∈ (s.scanKeys now (generateKeyMatcher key)).toFinset := by
      apply List.mem_toFinset.mpr
      apply List.mem_map.mpr
      refine ⟨e0, ?_, he0key⟩
      apply List.mem_filter.mpr
      exact ⟨he0mem, by rw [he0key]; exact hm⟩
    have hvalR : ∀ k, (RedisState.mk ((s.purge now).entries.map (fun e =>
        if e.key == setKey key t w then { e with value := e.value + 1 } else e))).valueOf now k
        = (if k = setKey key t w then s.valueOf now k + 1 else s.valueOf now k) := by
      intro k
      unfold RedisState.valueOf
      rw [find?_map_purge s now _ hkeep hlive k]
      by_cases hk : k = setKey key t w
      · subst hk
        rw [hf]
        simp [he0key]
      · rw [if_neg hk]
        cases hf2 : (s.purge now).entries.find? (fun e => e.key == k) with
        | none => rfl
        | some e1 =>
          have he1 : e1.key = k := by
            have := List.find?_some hf2
            simpa using this
          simp only [Option.map_some']
          rw [if_neg (by rw [he1]; simpa using hk)]
    have hsplit := Finset.sum_eq_sum_diff_singleton_add hkBin
      ((RedisState.mk ((s.purge now).entries.map (fun e =>
        if e.key == setKey key t w then { e with value := e.value + 1 } else e))).valueOf now)
    rw [hsplit]
    rw [Finset.sum_eq_sum_diff_singleton_add hkBin (s.valueOf now)]
    have hs1 : ((s.scanKeys now (generateKeyMatcher key)).toFinset \ {setKey key t w}).sum
        ((RedisState.mk ((s.purge now).entries.map (fun e =>
          if e.key == setKey key t w then { e with value := e.value + 1 } else e))).valueOf now)
        = ((s.scanKeys now (generateKeyMatcher key)).toFinset \ {setKey key t w}).sum
          (s.valueOf now) := by
      apply Finset.sum_congr rfl
      intro k hk
      rw [hvalR k, if_neg]
      intro hkk
      rw [hkk] at hk
      simp at hk
    rw [hs1, hvalR (setKey key t w), if_pos rfl]
    have heta : ((s.scanKeys now (generateKeyMatcher key)).toFinset \ {setKey key t w}).sum
        (s.valueOf now) =
        ∑ x ∈ (s.scanKeys now (generateKeyMatcher key)).toFinset \ {setKey key t w},
          s.valueOf now x := rfl
    omega

/-! ### The limiter on a single clean subject -/

/-- A clean key's own pattern discovers every bucket key it generates. -/
theorem stringmatch_matcher_self (key : RateLimiterKey) (i : Int)
    (hu : CleanStr key.UserId) (he : CleanStr key.Endpoint) :
    stringmatch (generateKeyMatcher key) (generateKey key i) = true := by
  rw [stringmatch_matcher key _ hu he, generateKey_data]
  have hshape : key.UserId.data ++ '#' :: (key.Endpoint.data ++ '#' :: (intRepr i).data) =
      (key.UserId.data ++ '#' :: (key.Endpoint.data ++ ['#'])) ++ (intRepr i).data := by
    simp
  rw [hshape]
  exact hasPre_append _ _

theorem toInt32_eq (i : Int) (h1 : 0 ≤ i) (h2 : i < 2147483648) : toInt32 i = i := by
  unfold toInt32
  omega

/-- `AllowRequest` on a configured endpoint, with the redis store's
always-successful operations folded in. -/
theorem AllowRequest_eq (config : RateLimiterConfig) (s : RedisState) (t : Nat)
    (endpoint userId epr : String) (conf : EndpointConfig)
    (hfind : config.find? (fun p => p.1 == endpoint) = some (epr, conf)) :
    AllowRequest config s t endpoint userId =
      (if redisGetCount s (unixSeconds t) ⟨userId, endpoint⟩ = 0 then
        (true, redisSet s (unixSeconds t) ⟨userId, endpoint⟩ t
          conf.SlidingWindowInterval conf.TimeWindow)
      else if redisGetCount s (unixSeconds t) ⟨userId, endpoint⟩ < toInt32 conf.MaxRequests then
        (true, redisSet s (unixSeconds t) ⟨userId, endpoint⟩ t
          conf.SlidingWindowInterval conf.TimeWindow)
      else (false, s)) := by
  simp [AllowRequest, AllowRequestS, redisStoreOps, hfind]

/-- Invariant of strictly sequential admitted calls on one clean subject:
after `k` calls the keyspace holds the single bucket with counter `k`,
and every call up to the threshold is admitted. -/
theorem allowIter_state (config : RateLimiterConfig) (t : Nat)
    (endpoint userId epr : String) (conf : EndpointConfig) (N : Nat)
    (hfind : config.find? (fun p => p.1 == endpoint) = some (epr, conf))
    (hu : CleanStr userId) (he : CleanStr endpoint)
    (httl : 0 < durSeconds conf.TimeWindow)
    (hNval : conf.MaxRequests = (N : Int)) (hNlt : N < 2147483648) :
    ∀ k : Nat, k ≤ N →
      (1 ≤ k → (allowIter config t endpoint userId k).1 = true) ∧
      (allowIter config t endpoint userId k).2 =
        (if k = 0 then ⟨[]⟩ else
          ⟨[⟨setKey ⟨userId, endpoint⟩ t conf.SlidingWindowInterval, k,
             some (unixSeconds t + durSeconds conf.TimeWindow)⟩]⟩) := by
  have hm : stringmatch (generateKeyMatcher ⟨userId, endpoint⟩)
      (setKey ⟨userId, endpoint⟩ t conf.SlidingWindowInterval) = true :=
    stringmatch_matcher_self ⟨userId, endpoint⟩ _ hu he
  intro k
  induction k with
  | zero => intro _; exact ⟨fun h => absurd h (by omega), rfl⟩
  | succ k ih =>
    intro hk1
    obtain ⟨_, hstate⟩ := ih (by omega)
    constructor
    case _ =>
      intro _
      rw [allowIter, AllowRequest_eq config _ t endpoint userId epr conf hfind, hstate]
      by_cases hk0 : k = 0
      · subst hk0
        rw [if_pos rfl]
        have hget : redisGetCount ⟨[]⟩ (unixSeconds t) ⟨userId, endpoint⟩ = 0 := by
          unfold redisGetCount redisGetNat
          show toInt32 (getLoop ((RedisState.mk []).scanKeys (unixSeconds t)
            (generateKeyMatcher ⟨userId, endpoint⟩)) ((RedisState.mk []).valueOf (unixSeconds t)) []) = 0
          rw [show (RedisState.mk []).scanKeys (unixSeconds t)
            (generateKeyMatcher ⟨userId, endpoint⟩) = [] from rfl]
          show toInt32 ((0 : Nat) : Int) = 0
          decide
        rw [if_pos hget]
      · rw [if_neg hk0]
        have hlive : liveAt (unixSeconds t)
            (⟨setKey ⟨userId, endpoint⟩ t conf.SlidingWindowInterval, k,
              some (unixSeconds t + durSeconds conf.TimeWindow)⟩ : RedisEntry) = true := by
          simp [liveAt]
          omega
        have hget : redisGetCount
            ⟨[⟨setKey ⟨userId, endpoint⟩ t conf.SlidingWindowInterval, k,
               some (unixSeconds t + durSeconds conf.TimeWindow)⟩]⟩
            (unixSeconds t) ⟨userId, endpoint⟩ = (k : Int) := by
          unfold redisGetCount
          rw [redisGetNat_single _ _ _ _ _ hm hlive]
          exact toInt32_eq _ (by omega) (by exact_mod_cast by omega)
        rw [hget]
        rw [if_neg (by exact_mod_cast hk0), if_pos (by
          rw [hNval, toInt32_eq _ (by omega) (by exact_mod_cast hNlt)]
          exact_mod_cast (by omega : k < N))]
    case _ =>
      rw [allowIter, AllowRequest_eq config _ t endpoint userId epr conf hfind, hstate]
      by_cases hk0 : k = 0
      · subst hk0
        rw [if_pos rfl]
        have hget : redisGetCount ⟨[]⟩ (unixSeconds t) ⟨userId, endpoint⟩ = 0 := by
          unfold redisGetCount redisGetNat
          show toInt32 (getLoop ((RedisState.mk []).scanKeys (unixSeconds t)
            (generateKeyMatcher ⟨userId, endpoint⟩)) ((RedisState.mk []).valueOf (unixSeconds t)) []) = 0
          rw [show (RedisState.mk []).scanKeys (unixSeconds t)
            (generateKeyMatcher ⟨userId, endpoint⟩) = [] from rfl]
          show toInt32 ((0 : Nat) : Int) = 0
          decide
        rw [if_pos hget]
        have hfnone : ((RedisState.mk []).purge (unixSeconds t)).entries.find?
            (fun e => e.key == setKey ⟨userId, endpoint⟩ t conf.SlidingWindowInterval) = none :=
          rfl
        show redisSet ⟨[]⟩ (unixSeconds t) ⟨userId, endpoint⟩ t
          conf.SlidingWindowInterval conf.TimeWindow = _
        rw [redisSet_new _ _ _ _ _ _ hfnone]
        rw [show ((RedisState.mk []).purge (unixSeconds t)).entries = [] from rfl]
        simp
      · rw [if_neg hk0]
        have hlive : liveAt (unixSeconds t)
            (⟨setKey ⟨userId, endpoint⟩ t conf.SlidingWindowInterval, k,
              some (unixSeconds t + durSeconds conf.TimeWindow)⟩ : RedisEntry) = true := by
          simp [liveAt]
          omega
        have hget : redisGetCount
            ⟨[⟨setKey ⟨userId, endpoint⟩ t conf.SlidingWindowInterval, k,
               some (unixSeconds t + durSeconds conf.TimeWindow)⟩]⟩
            (unixSeconds t) ⟨userId, endpoint⟩ = (k : Int) := by
          unfold redisGetCount
          rw [redisGetNat_single _ _ _ _ _ hm hlive]
          exact toInt32_eq _ (by omega) (by exact_mod_cast by omega)
        rw [hget]
        rw [if_neg (by exact_mod_cast hk0), if_pos (by
          rw [hNval, toInt32_eq _ (by omega) (by exact_mod_cast hNlt)]
          exact_mod_cast (by omega : k < N))]
        have hpurge1 : ((RedisState.mk
            [⟨setKey ⟨userId, endpoint⟩ t conf.SlidingWindowInterval, k,
              some (unixSeconds t + durSeconds conf.TimeWindow)⟩]).purge (unixSeconds t)).entries =
            [⟨setKey ⟨userId, endpoint⟩ t conf.SlidingWindowInterval, k,
              some (unixSeconds t + durSeconds conf.TimeWindow)⟩] := by
          simp [RedisState.purge, List.filter, hlive]
        have hfsome : ((RedisState.mk
            [⟨setKey ⟨userId, endpoint⟩ t conf.SlidingWindowInterval, k,
              some (unixSeconds t + durSeconds conf.TimeWindow)⟩]).purge (unixSeconds t)).entries.find?
            (fun e => e.key == setKey ⟨userId, endpoint⟩ t conf.SlidingWindowInterval) =
            some ⟨setKey ⟨userId, endpoint⟩ t conf.SlidingWindowInterval, k,
              some (unixSeconds t + durSeconds conf.TimeWindow)⟩ := by
          rw [hpurge1]
          simp [List.find?]
        rw [redisSet_existing _ _ _ _ _ _ _ hfsome (by simpa using hk0)]
        rw [hpurge1]
        simp [if_neg hk0]

/-! ### The claims -/

/-- C3: on a configured endpoint, a store `Get` error makes
`AllowRequest` return `true` with the state untouched, and when the
recording branch is taken (count zero or below the limit) a failing `Set`
also yields `true` with the state untouched: store-layer errors never
surface as a rejection or hard failure. -/
theorem claim_C3 {σ : Type} (st : StoreOps σ) (config : RateLimiterConfig) (s : σ) (t : Nat)
    (endpoint userId epr : String) (conf : EndpointConfig)
    (hfind : config.find? (fun p => p.1 == endpoint) = some (epr, conf)) :
    (∀ msg, st.Get s (unixSeconds t) ⟨userId, endpoint⟩ = Except.error msg →
      AllowRequestS st config s t endpoint userId = (true, s)) ∧
    (∀ count msg, st.Get s (unixSeconds t) ⟨userId, endpoint⟩ = Except.ok count →
      (count = 0 ∨ count < toInt32 conf.MaxRequests) →
      st.Set s (unixSeconds t) ⟨userId, endpoint⟩ t
        conf.SlidingWindowInterval conf.TimeWindow = Except.error msg →
      AllowRequestS st config s t endpoint userId = (true, s)) := by
  constructor
  · intro msg hget
    unfold AllowRequestS
    simp only [hfind, hget]
  · intro count msg hget hbranch hset
    unfold AllowRequestS
    simp only [hfind, hget]
    by_cases hc0 : count = 0
    · rw [if_pos hc0, hset]
    · rcases hbranch with h | h
      · exact absurd h hc0
      · rw [if_neg hc0, if_pos h, hset]

/-- C3 witness: a concrete endpoint over stores whose `Get` (first
component) or `Set` (second component) fail; both requests are admitted
with the state untouched. -/
theorem claim_C3_witness :
    AllowRequestS (⟨fun _ _ _ => Except.error "down", fun _ _ _ _ _ _ => Except.error "down"⟩ :
        StoreOps Unit)
      [("e", ⟨1, 60000000000, 60000000000⟩)] () 62135596800000000000 "e" "u" = (true, ()) ∧
    AllowRequestS (⟨fun _ _ _ => Except.ok 0, fun _ _ _ _ _ _ => Except.error "down"⟩ :
        StoreOps Unit)
      [("e", ⟨1, 60000000000, 60000000000⟩)] () 62135596800000000000 "e" "u" = (true, ()) :=
  ⟨(claim_C3 ⟨fun _ _ _ => Except.error "down", fun _ _ _ _ _ _ => Except.error "down"⟩
      [("e", ⟨1, 60000000000, 60000000000⟩)] () 62135596800000000000 "e" "u" "e"
      ⟨1, 60000000000, 60000000000⟩ rfl).1 "down" rfl,
   (claim_C3 ⟨fun _ _ _ => Except.ok 0, fun _ _ _ _ _ _ => Except.error "down"⟩
      [("e", ⟨1, 60000000000, 60000000000⟩)] () 62135596800000000000 "e" "u" "e"
      ⟨1, 60000000000, 60000000000⟩ rfl).2 0 "down" rfl (Or.inl rfl) rfl⟩

/-- C4 counterexample: with `MaxRequests = 0` and an empty store the
aggregate count 0 is at least `MaxRequests`, yet `AllowRequest` admits
the request and records it (the zero-count branch precedes the threshold
check), refuting the claim as stated. -/
theorem claim_C4_counterexample :
    ¬(redisGetCount ⟨[]⟩ (unixSeconds 62135596800000000000) ⟨"u", "e"⟩ <
        toInt32 ((⟨0, 60000000000, 60000000000⟩ : EndpointConfig).MaxRequests)) ∧
    (AllowRequest [("e", ⟨0, 60000000000, 60000000000⟩)] ⟨[]⟩
      62135596800000000000 "e" "u").1 = true ∧
    (AllowRequest [("e", ⟨0, 60000000000, 60000000000⟩)] ⟨[]⟩
      62135596800000000000 "e" "u").2 ≠ ⟨[]⟩ := by
  decide

/-- C4 (amended): on a configured endpoint, whenever the aggregate count
is at least `int32(MaxRequests)` AND nonzero, `AllowRequest` returns
`false` and leaves the store state exactly unchanged (no `Set`). -/
theorem claim_C4 (config : RateLimiterConfig) (s : RedisState) (t : Nat)
    (endpoint userId epr : String) (conf : EndpointConfig)
    (hfind : config.find? (fun p => p.1 == endpoint) = some (epr, conf))
    (hne : redisGetCount s (unixSeconds t) ⟨userId, endpoint⟩ ≠ 0)
    (hge : ¬(redisGetCount s (unixSeconds t) ⟨userId, endpoint⟩ < toInt32 conf.MaxRequests)) :
    AllowRequest config s t endpoint userId = (false, s) := by
  rw [AllowRequest_eq config s t endpoint userId epr conf hfind, if_neg hne, if_neg hge]

/-- C4 witness: one live bucket holding the full budget; the next request
is rejected and the keyspace is untouched. -/
theorem claim_C4_witness :
    AllowRequest [("e", ⟨1, 60000000000, 60000000000⟩)] ⟨[⟨"u#e#0", 1, none⟩]⟩
      62135596800000000000 "e" "u" = (false, ⟨[⟨"u#e#0", 1, none⟩]⟩) :=
  claim_C4 [("e", ⟨1, 60000000000, 60000000000⟩)] ⟨[⟨"u#e#0", 1, none⟩]⟩
    62135596800000000000 "e" "u" "e" ⟨1, 60000000000, 60000000000⟩
    rfl (by decide) (by decide)

/-- C9: the code contradicts its documented defaults.  With
`TimeWindow` and `SlidingWindowInterval` left at their zero values and
`MaxRequests = 1`, two sequential requests are BOTH admitted (the zero
TTL expires the bucket immediately), whereas under the documented
defaults (24 h window, 1 min interval) the second request is rejected:
`AllowRequest` never applies `DefaultEndpointConfig`. -/
theorem claim_C9 :
    (allowIter [("e", ⟨1, 0, 0⟩)] 62135596800000000000 "e" "u" 1).1 = true ∧
    (allowIter [("e", ⟨1, 0, 0⟩)] 62135596800000000000 "e" "u" 2).1 = true ∧
    (allowIter [("e", ⟨1, DefaultEndpointConfig.TimeWindow,
        DefaultEndpointConfig.SlidingWindowInterval⟩)]
      62135596800000000000 "e" "u" 2).1 = false := by
  decide

/-- C10: whenever the aggregate count reads 0 on a configured endpoint,
`AllowRequest` admits and records the request — the conclusion never
consults `MaxRequests`, so this holds for zero or negative limits too. -/
theorem claim_C10 (config : RateLimiterConfig) (s : RedisState) (t : Nat)
    (endpoint userId epr : String) (conf : EndpointConfig)
    (hfind : config.find? (fun p => p.1 == endpoint) = some (epr, conf))
    (hzero : redisGetCount s (unixSeconds t) ⟨userId, endpoint⟩ = 0) :
    AllowRequest config s t endpoint userId =
      (true, redisSet s (unixSeconds t) ⟨userId, endpoint⟩ t
        conf.SlidingWindowInterval conf.TimeWindow) := by
  rw [AllowRequest_eq config s t endpoint userId epr conf hfind, if_pos hzero]

/-- C10 witness: `MaxRequests = 0`, empty store — the first request is
still admitted and recorded. -/
theorem claim_C10_witness :
    AllowRequest [("e", ⟨0, 60000000000, 60000000000⟩)] ⟨[]⟩
      62135596800000000000 "e" "u" =
      (true, redisSet ⟨[]⟩ (unixSeconds 62135596800000000000) ⟨"u", "e"⟩
        62135596800000000000 60000000000 60000000000) :=
  claim_C10 [("e", ⟨0, 60000000000, 60000000000⟩)] ⟨[]⟩ 62135596800000000000
    "e" "u" "e" ⟨0, 60000000000, 60000000000⟩ rfl (by decide)

/-- C7: the store's `Get` returns 0 (no error is possible for the
redis-modelled store) when no live bucket matches the key's pattern, and
the deduplicating scan loop sums each distinct scanned key exactly once:
its result is the sum of the looked-up value over the distinct keys. -/
theorem claim_C7 (s : RedisState) (now : Int) (key : RateLimiterKey)
    (ks : List String) (val : String → Nat) :
    ((∀ e ∈ s.entries, liveAt now e = true →
        stringmatch (generateKeyMatcher key) e.key = false) →
      redisGetCount s now key = 0) ∧
    getLoop ks val [] = (ks.toFinset).sum val := by
  constructor
  · intro h
    have hscan : s.scanKeys now (generateKeyMatcher key) = [] := by
      unfold RedisState.scanKeys
      rw [List.filter_eq_nil_iff.mpr (by
        intro e he
        have hmem : e ∈ s.entries := List.mem_of_mem_filter he
        have hlive : liveAt now e = true := List.of_mem_filter he
        simp [h e hmem hlive])]
      rfl
    unfold redisGetCount redisGetNat
    rw [hscan]
    show toInt32 ((0 : Nat) : Int) = 0
    decide
  · rw [getLoop_sum]
    simp

/-- C7 witness: a dead non-matching bucket contributes nothing, and a
scan yielding the same key twice counts it once. -/
theorem claim_C7_witness :
    redisGetCount ⟨[⟨"a#b#0", 5, some 0⟩]⟩ 0 ⟨"u", "e"⟩ = 0 ∧
    getLoop ["k", "k"] (fun _ => 3) [] = ((["k", "k"] : List String).toFinset).sum (fun _ => 3) :=
  ⟨(claim_C7 ⟨[⟨"a#b#0", 5, some 0⟩]⟩ 0 ⟨"u", "e"⟩ ["k", "k"] (fun _ => 3)).1 (by decide),
   (claim_C7 ⟨[⟨"a#b#0", 5, some 0⟩]⟩ 0 ⟨"u", "e"⟩ ["k", "k"] (fun _ => 3)).2⟩

/-- C1 counterexample: with `maxRequests = 1` (positive) and the userId
`"\"` — a legal caller-identity string containing the redis glob escape
character — the matcher pattern never rediscovers the bucket key it just
wrote, so the second ((N+1)th) strictly sequential call is admitted
instead of rejected. -/
theorem claim_C1_counterexample :
    (allowIter [("e", ⟨1, 60000000000, 60000000000⟩)] 62135596800000000000 "e" "\\" 1).1
      = true ∧
    (allowIter [("e", ⟨1, 60000000000, 60000000000⟩)] 62135596800000000000 "e" "\\" 2).1
      = true := by
  decide

/-- C1 (amended): on a configured endpoint with
`MaxRequests = N`, `0 < N < 2^31`, userId and endpoint free of the redis
glob metacharacters, and a TTL of at least one second, `N + 1` strictly
sequential `AllowRequest` calls at one instant from an empty keyspace
admit exactly the first `N` and reject the `(N+1)`th. -/
theorem claim_C1 (config : RateLimiterConfig) (t : Nat)
    (endpoint userId epr : String) (conf : EndpointConfig) (N : Nat)
    (hfind : config.find? (fun p => p.1 == endpoint) = some (epr, conf))
    (hu : CleanStr userId) (he : CleanStr endpoint)
    (httl : 0 < durSeconds conf.TimeWindow)
    (hNval : conf.MaxRequests = (N : Int)) (hN : 0 < N) (hNlt : N < 2147483648) :
    (∀ k : Nat, 1 ≤ k → k ≤ N → (allowIter config t endpoint userId k).1 = true) ∧
    (allowIter config t endpoint userId (N + 1)).1 = false := by
  have hm : stringmatch (generateKeyMatcher ⟨userId, endpoint⟩)
      (setKey ⟨userId, endpoint⟩ t conf.SlidingWindowInterval) = true :=
    stringmatch_matcher_self ⟨userId, endpoint⟩ _ hu he
  constructor
  · intro k hk1 hk2
    exact (allowIter_state config t endpoint userId epr conf N hfind hu he httl hNval hNlt
      k hk2).1 hk1
  · have hstate := (allowIter_state config t endpoint userId epr conf N hfind hu he httl
      hNval hNlt N (Nat.le_refl N)).2
    rw [if_neg (by omega)] at hstate
    rw [allowIter, AllowRequest_eq config _ t endpoint userId epr conf hfind, hstate]
    have hlive : liveAt (unixSeconds t)
        (⟨setKey ⟨userId, endpoint⟩ t conf.SlidingWindowInterval, N,
          some (unixSeconds t + durSeconds conf.TimeWindow)⟩ : RedisEntry) = true := by
      simp [liveAt]
      omega
    have hget : redisGetCount
        ⟨[⟨setKey ⟨userId, endpoint⟩ t conf.SlidingWindowInterval, N,
           some (unixSeconds t + durSeconds conf.TimeWindow)⟩]⟩
        (unixSeconds t) ⟨userId, endpoint⟩ = (N : Int) := by
      unfold redisGetCount
      rw [redisGetNat_single _ _ _ _ _ hm hlive]
      exact toInt32_eq _ (by omega) (by exact_mod_cast hNlt)
    rw [hget]
    rw [if_neg (by exact_mod_cast by omega), if_neg (by
      rw [hNval, toInt32_eq _ (by omega) (by exact_mod_cast hNlt)]
      omega)]

/-- C1 witness: `maxRequests = 2` on a clean subject — calls 1 and 2 are
admitted, call 3 is rejected. -/
theorem claim_C1_witness :
    (∀ k : Nat, 1 ≤ k → k ≤ 2 →
      (allowIter [("e", ⟨2, 60000000000, 60000000000⟩)] 62135596800000000000 "e" "u" k).1
        = true) ∧
    (allowIter [("e", ⟨2, 60000000000, 60000000000⟩)] 62135596800000000000 "e" "u" 3).1
      = false :=
  claim_C1 [("e", ⟨2, 60000000000, 60000000000⟩)] 62135596800000000000 "e" "u" "e"
    ⟨2, 60000000000, 60000000000⟩ 2 rfl (by decide) (by decide) (by decide) (by decide)
    (by decide) (by decide)

/-- C2 counterexample: the delimiter `#` is not escaped, so the keys
`(u, x)` and `(u, x#y)` differ yet a `Set` under the second raises the
`Get` count of the first from 0 to 1 — the match pattern `u#x#*` matches
the bucket key `u#x#y#0`. -/
theorem claim_C2_counterexample :
    (RateLimiterKey.mk "u" "x") ≠ ⟨"u", "x#y"⟩ ∧
    redisGetCount (⟨[]⟩ : RedisState) 0 ⟨"u", "x"⟩ = 0 ∧
    redisGetCount (redisSet ⟨[]⟩ 0 ⟨"u", "x#y"⟩ 62135596800000000000
      60000000000 60000000000) 0 ⟨"u", "x"⟩ = 1 := by
  decide

/-- C2 (amended): for two different `RateLimiterKey`s whose userIds and
endpoints contain neither the delimiter `#` nor a redis glob
metacharacter, a `Set` under one never changes the count `Get` returns
for the other: the counters are independent. -/
theorem claim_C2 (A B : RateLimiterKey) (s : RedisState) (now : Int) (t : Nat) (w ttl : Int)
    (hAB : A ≠ B)
    (huA : CleanStr A.UserId) (heA : CleanStr A.Endpoint)
    (hhuA : NoHash A.UserId) (hheA : NoHash A.Endpoint)
    (hhuB : NoHash B.UserId) (hheB : NoHash B.Endpoint) :
    redisGetCount (redisSet s now B t w ttl) now A = redisGetCount s now A := by
  have hnm : stringmatch (generateKeyMatcher A) (setKey B t w) = false := by
    cases hb : stringmatch (generateKeyMatcher A) (setKey B t w) with
    | false => rfl
    | true =>
      exfalso
      exact hAB ((stringmatch_matcher_key A B _ huA heA hhuA hheA hhuB hheB).mp hb)
  unfold redisGetCount
  cases hf : (s.purge now).entries.find? (fun e => e.key == setKey B t w) with
  | none =>
    rw [redisSet_new s now B t w ttl hf]
    rw [redisGetNat_append_frame s now A _ hnm]
  | some e0 =>
    by_cases hv : e0.value = 0
    · rw [redisSet_existing_zero s now B t w ttl e0 hf hv, List.map_map]
      rw [redisGetNat_map_frame s now A (setKey B t w) _
        (by
          intro e
          by_cases hek : e.key == setKey B t w
          · simp [Function.comp, hek]
          · simp [Function.comp, hek])
        (by
          intro e hek
          have hb : (e.key == setKey B t w) = false := beq_eq_false_iff_ne.mpr hek
          simp [Function.comp, hb])
        hnm]
    · rw [redisSet_existing s now B t w ttl e0 hf hv]
      rw [redisGetNat_map_frame s now A (setKey B t w) _
        (by
          intro e
          by_cases hek : e.key == setKey B t w
          · simp [hek]
          · simp [hek])
        (by
          intro e hek
          have hb : (e.key == setKey B t w) = false := beq_eq_false_iff_ne.mpr hek
          simp [hb])
        hnm]

/-- C2 witness: user `u`'s three admitted requests on endpoint `x` are
invisible to a `Set` under the clean, different key `(u, y)`. -/
theorem claim_C2_witness :
    redisGetCount (redisSet ⟨[⟨"u#x#0", 3, none⟩]⟩ 0 ⟨"u", "y"⟩ 62135596800000000000
        60000000000 60000000000) 0 ⟨"u", "x"⟩ =
      redisGetCount ⟨[⟨"u#x#0", 3, none⟩]⟩ 0 ⟨"u", "x"⟩ :=
  claim_C2 ⟨"u", "x"⟩ ⟨"u", "y"⟩ ⟨[⟨"u#x#0", 3, none⟩]⟩ 0 62135596800000000000
    60000000000 60000000000 (by decide) (by decide) (by decide) (by decide) (by decide)
    (by decide) (by decide)

/-- Bucket keys of the same subject with different unix seconds differ. -/
theorem generateKey_inj_right (key : RateLimiterKey) (a b : Int)
    (h : generateKey key a = generateKey key b) : a = b := by
  have hd := congrArg String.data h
  rw [generateKey_data, generateKey_data] at hd
  have h1 := List.append_cancel_left hd
  simp only [List.cons.injEq, true_and] at h1
  have h2 := List.append_cancel_left h1
  simp only [List.cons.injEq, true_and] at h2
  exact intRepr_inj a b (String.ext h2)

/-- C5 counterexample: with `windowInterval = 1` nanosecond (a positive
duration), the timestamps at a boundary and one nanosecond before it
truncate to distinct boundaries, but both `Set`s land in the SAME
bucket — the bucket key only records whole unix seconds, so the single
bucket `u#e#0` ends with counter 2. -/
theorem claim_C5_counterexample :
    truncateTime (62135596800000000000 + 500000000) 1 ≠
      truncateTime (62135596800000000000 + 500000000 - 1) 1 ∧
    (redisSet (redisSet ⟨[]⟩ 0 ⟨"u", "e"⟩ (62135596800000000000 + 500000000 - 1) 1
        60000000000) 0 ⟨"u", "e"⟩ (62135596800000000000 + 500000000) 1
        60000000000).entries =
      [⟨"u#e#0", 2, some 60⟩] := by
  decide

/-- C5 (amended): for positive `windowInterval`, `Set` computes the
floor boundary `t - (t mod w)`; and when `windowInterval` is a positive
whole number of seconds, a `Set` at a boundary and one at the boundary
minus one nanosecond target two distinct bucket keys. -/
theorem claim_C5 (key : RateLimiterKey) (t : Nat) (w : Int) (m : Nat)
    (hw : w = 1000000000 * (m : Int)) (hm : 0 < m)
    (hb : t % w.toNat = 0) (hge : w.toNat ≤ t) :
    truncateTime t w = t - t % w.toNat ∧
    setKey key t w ≠ setKey key (t - 1) w := by
  have hwpos : ¬(w ≤ 0) := by omega
  have hW : w.toNat = 1000000000 * m := by omega
  constructor
  · unfold truncateTime
    rw [if_neg hwpos]
  · obtain ⟨c, hc⟩ : w.toNat ∣ t := Nat.dvd_of_mod_eq_zero hb
    have hc1 : 1 ≤ c := by
      rcases Nat.eq_zero_or_pos c with h0 | h1
      · subst h0; omega
      · exact h1
    obtain ⟨c2, rfl⟩ : ∃ c2, c = c2 + 1 := ⟨c - 1, by omega⟩
    have htr1 : truncateTime t w = t := by
      unfold truncateTime
      rw [if_neg hwpos, hb]
      omega
    have hmod2 : (t - 1) % w.toNat = w.toNat - 1 := by
      have ht1 : t - 1 = (w.toNat - 1) + w.toNat * c2 := by
        rw [hc, Nat.mul_succ]
        omega
      rw [ht1, Nat.add_mul_mod_self_left]
      exact Nat.mod_eq_of_lt (by omega)
    have htr2 : truncateTime (t - 1) w = t - w.toNat := by
      unfold truncateTime
      rw [if_neg hwpos, hmod2]
      omega
    intro heq
    have hux := generateKey_inj_right key _ _ heq
    rw [htr1, htr2] at hux
    unfold unixSeconds at hux
    have hcast : ((t - w.toNat : Nat) : Int) = (t : Int) - (w.toNat : Int) := by
      omega
    rw [hcast] at hux
    have htInt : (t : Int) = 1000000000 * ((m : Int) * (c2 + 1)) := by
      rw [hc, hW]
      push_cast
      ring
    have hdiv1 : (t : Int) / 1000000000 = (m : Int) * (c2 + 1) := by
      rw [htInt]
      exact Int.mul_ediv_cancel_left _ (by omega)
    have hdiv2 : ((t : Int) - (w.toNat : Int)) / 1000000000 = (m : Int) * (c2 + 1) - m := by
      have : (t : Int) - (w.toNat : Int) = 1000000000 * ((m : Int) * (c2 + 1) - m) := by
        rw [htInt, hW]
        push_cast
        ring
      rw [this]
      exact Int.mul_ediv_cancel_left _ (by omega)
    rw [hdiv1, hdiv2] at hux
    have hmne : (0 : Int) < (m : Int) := by exact_mod_cast hm
    omega

/-- C5 witness: a one-minute interval at a minute boundary — the two
`Set`s target distinct bucket keys. -/
theorem claim_C5_witness :
    truncateTime 62135596800000000000 60000000000 =
      62135596800000000000 - 62135596800000000000 % (60000000000 : Int).toNat ∧
    setKey ⟨"u", "e"⟩ 62135596800000000000 60000000000 ≠
      setKey ⟨"u", "e"⟩ (62135596800000000000 - 1) 60000000000 :=
  claim_C5 ⟨"u", "e"⟩ 62135596800000000000 60000000000 60 (by decide) (by decide)
    (by decide) (by decide)

/-- C6 counterexample: for the legal userId `"\"` the bucket key written
by `Set` is not discoverable by the matcher (the backslash is a glob
escape), so `Get` after a `Set` still returns 0, not one more. -/
theorem claim_C6_counterexample :
    redisGetCount (⟨[]⟩ : RedisState) 0 ⟨"\\", "e"⟩ = 0 ∧
    redisGetCount (redisSet ⟨[]⟩ 0 ⟨"\\", "e"⟩ 62135596800000000000
      60000000000 60000000000) 0 ⟨"\\", "e"⟩ = 0 := by
  decide

/-- C6 (amended): for identifiers free of redis glob metacharacters, a
TTL of at least one second, positive stored counters, and an aggregate
below `2^31 - 1`, `Get` after a `Set` returns exactly one more than
before; and two `Set`s at timestamps with equal truncation starting from
an empty keyspace accumulate in the single shared bucket. -/
theorem claim_C6 (key : RateLimiterKey) (s : RedisState) (now : Int) (t t2 : Nat)
    (w ttl : Int)
    (hu : CleanStr key.UserId) (he : CleanStr key.Endpoint)
    (httl : 0 < durSeconds ttl)
    (hval1 : ∀ e ∈ s.entries, e.value ≠ 0)
    (hbound : redisGetNat s now key + 1 < 2147483648) :
    redisGetCount (redisSet s now key t w ttl) now key = redisGetCount s now key + 1 ∧
    (truncateTime t w = truncateTime t2 w →
      redisSet (redisSet ⟨[]⟩ now key t w ttl) now key t2 w ttl =
        ⟨[⟨setKey key t w, 2, some (now + durSeconds ttl)⟩]⟩) := by
  have hm : stringmatch (generateKeyMatcher key) (setKey key t w) = true :=
    stringmatch_matcher_self key _ hu he
  constructor
  · have h1 := redisGetNat_set_same s now key t w ttl hm httl hval1
    unfold redisGetCount
    rw [h1]
    have hb1 : ((redisGetNat s now key + 1 : Nat) : Int) < 2147483648 := by
      exact_mod_cast hbound
    rw [toInt32_eq _ (by omega) hb1, toInt32_eq _ (by omega) (by push_cast at hb1 ⊢; omega)]
    push_cast
    ring
  · intro heq
    have hkey2 : setKey key t2 w = setKey key t w := by
      unfold setKey
      rw [heq]
    have hf0 : ((RedisState.mk []).purge now).entries.find?
        (fun e => e.key == setKey key t w) = none := rfl
    have hs1 : redisSet ⟨[]⟩ now key t w ttl =
        ⟨[⟨setKey key t w, 1, some (now + durSeconds ttl)⟩]⟩ := by
      rw [redisSet_new _ _ _ _ _ _ hf0]
      rw [show ((RedisState.mk []).purge now).entries = [] from rfl]
      rfl
    rw [hs1]
    have hlive : liveAt now
        (⟨setKey key t w, 1, some (now + durSeconds ttl)⟩ : RedisEntry) = true := by
      simp [liveAt]
      omega
    have hpurge1 : ((RedisState.mk [⟨setKey key t w, 1, some (now + durSeconds ttl)⟩]).purge
        now).entries = [⟨setKey key t w, 1, some (now + durSeconds ttl)⟩] := by
      simp [RedisState.purge, List.filter, hlive]
    have hfsome : ((RedisState.mk
        [⟨setKey key t w, 1, some (now + durSeconds ttl)⟩]).purge now).entries.find?
        (fun e => e.key == setKey key t2 w) =
        some ⟨setKey key t w, 1, some (now + durSeconds ttl)⟩ := by
      rw [hpurge1, hkey2]
      simp [List.find?]
    rw [redisSet_existing _ _ _ _ _ _ _ hfsome (by simp)]
    rw [hpurge1, hkey2]
    simp

/-- C6 witness: a clean subject on an empty keyspace — `Get` goes from 0
to 1, and a repeated `Set` at the same timestamp yields the single
bucket with counter 2. -/
theorem claim_C6_witness :
    redisGetCount (redisSet ⟨[]⟩ 0 ⟨"u", "e"⟩ 62135596800000000000 60000000000
        60000000000) 0 ⟨"u", "e"⟩ =
      redisGetCount ⟨[]⟩ 0 ⟨"u", "e"⟩ + 1 ∧
    redisSet (redisSet ⟨[]⟩ 0 ⟨"u", "e"⟩ 62135596800000000000 60000000000 60000000000)
        0 ⟨"u", "e"⟩ 62135596800000000000 60000000000 60000000000 =
      ⟨[⟨setKey ⟨"u", "e"⟩ 62135596800000000000 60000000000, 2,
         some (0 + durSeconds 60000000000)⟩]⟩ :=
  ⟨(claim_C6 ⟨"u", "e"⟩ ⟨[]⟩ 0 62135596800000000000 62135596800000000000 60000000000
      60000000000 (by decide) (by decide) (by decide) (by decide) (by decide)).1,
   (claim_C6 ⟨"u", "e"⟩ ⟨[]⟩ 0 62135596800000000000 62135596800000000000 60000000000
      60000000000 (by decide) (by decide) (by decide) (by decide) (by decide)).2 rfl⟩

/-- C8: a `Set` whose increment creates its bucket (no live entry under
the bucket key) appends it with counter 1 and expiry `durSeconds ttl`
seconds from now, and once that moment is reached the bucket is dead and
invisible to any scan; a `Set` that hits an existing live bucket with a
positive counter changes no expiry at all. -/
theorem claim_C8 (s : RedisState) (now : Int) (key : RateLimiterKey) (t : Nat) (w ttl : Int) :
    ((s.purge now).entries.find? (fun e => e.key == setKey key t w) = none →
      (redisSet s now key t w ttl).entries =
        (s.purge now).entries ++ [⟨setKey key t w, 1, some (now + durSeconds ttl)⟩] ∧
      ∀ now2 : Int, now + durSeconds ttl ≤ now2 →
        liveAt now2 (⟨setKey key t w, 1, some (now + durSeconds ttl)⟩ : RedisEntry) = false ∧
        ((redisSet s now key t w ttl).purge now2).entries.filter
          (fun e => e.key == setKey key t w) = []) ∧
    (∀ e0, (s.purge now).entries.find? (fun e => e.key == setKey key t w) = some e0 →
      e0.value ≠ 0 →
      (redisSet s now key t w ttl).entries.map (fun e => e.expireAt) =
        (s.purge now).entries.map (fun e => e.expireAt)) := by
  constructor
  · intro hf
    have hform := redisSet_new s now key t w ttl hf
    have hnokB : ∀ e ∈ (s.purge now).entries, (e.key == setKey key t w) = false := by
      intro e he
      have := List.find?_eq_none.mp hf e he
      simpa using this
    constructor
    · rw [hform]
    · intro now2 hle
      have hdead : liveAt now2
          (⟨setKey key t w, 1, some (now + durSeconds ttl)⟩ : RedisEntry) = false := by
        simp [liveAt]
        omega
      refine ⟨hdead, ?_⟩
      rw [hform]
      rw [List.filter_eq_nil_iff.mpr]
      intro e he
      have hmem : e ∈ (s.purge now).entries ++
          [(⟨setKey key t w, 1, some (now + durSeconds ttl)⟩ : RedisEntry)] :=
        List.mem_of_mem_filter he
      have hlive2 : liveAt now2 e = true := List.of_mem_filter he
      rcases List.mem_append.mp hmem with h1 | h2
      · simp [hnokB e h1]
      · simp only [List.mem_singleton] at h2
        rw [h2] at hlive2
        rw [hdead] at hlive2
        cases hlive2
  · intro e0 hf hv
    rw [redisSet_existing s now key t w ttl e0 hf hv]
    show ((s.purge now).entries.map (fun e => if e.key == setKey key t w then
      { e with value := e.value + 1 } else e)).map (fun e => e.expireAt) = _
    rw [List.map_map]
    apply List.map_congr_left
    intro e _
    by_cases hek : e.key == setKey key t w
    · simp [Function.comp, hek]
    · simp [Function.comp, hek]

/-- C8 witness: creating a bucket sets its expiry and it is gone at that
expiry second; re-hitting a live bucket leaves every expiry unchanged. -/
theorem claim_C8_witness :
    (redisSet ⟨[]⟩ 0 ⟨"u", "e"⟩ 62135596800000000000 60000000000 60000000000).entries =
      ((⟨[]⟩ : RedisState).purge 0).entries ++
        [⟨setKey ⟨"u", "e"⟩ 62135596800000000000 60000000000, 1,
          some (0 + durSeconds 60000000000)⟩] ∧
    liveAt 60 (⟨setKey ⟨"u", "e"⟩ 62135596800000000000 60000000000, 1,
      some (0 + durSeconds 60000000000)⟩ : RedisEntry) = false ∧
    ((redisSet ⟨[]⟩ 0 ⟨"u", "e"⟩ 62135596800000000000 60000000000 60000000000).purge
        60).entries.filter
      (fun e => e.key == setKey ⟨"u", "e"⟩ 62135596800000000000 60000000000) = [] ∧
    (redisSet ⟨[⟨"u#e#0", 1, none⟩]⟩ 0 ⟨"u", "e"⟩ 62135596800000000000 60000000000
        60000000000).entries.map (fun e => e.expireAt) =
      ((⟨[⟨"u#e#0", 1, none⟩]⟩ : RedisState).purge 0).entries.map (fun e => e.expireAt) :=
  ⟨((claim_C8 ⟨[]⟩ 0 ⟨"u", "e"⟩ 62135596800000000000 60000000000 60000000000).1 rfl).1,
   (((claim_C8 ⟨[]⟩ 0 ⟨"u", "e"⟩ 62135596800000000000 60000000000 60000000000).1 rfl).2
      60 (by decide)).1,
   (((claim_C8 ⟨[]⟩ 0 ⟨"u", "e"⟩ 62135596800000000000 60000000000 60000000000).1 rfl).2
      60 (by decide)).2,
   (claim_C8 ⟨[⟨"u#e#0", 1, none⟩]⟩ 0 ⟨"u", "e"⟩ 62135596800000000000 60000000000
      60000000000).2 ⟨"u#e#0", 1, none⟩ (by decide) (by decide)⟩
